import Mathlib

/-!
A shallow embedding of the configuration-closure core of
`src/extensions/extensions.py`: the raw-config parser (`Config.from_yaml`),
the static dependency Registry (`ConfigExtension._FILE_TYPES`,
`ConfigExtension._TOOLS`), the fixed-point closure engine
(`ConfigExtension.expand_config`) and the package projection
(`ConfigExtension._packages` / `python_packages`).

Python `frozenset[str]` is modelled as `Finset String`; Python dicts
(`frozendict`) as insertion-ordered association lists `List (String × String)`
with first-match lookup, which matches a Python dict's observable behaviour
because a Python mapping has no duplicate keys.  Metadata values are
modelled as strings (the claims under verification only involve string
values; the closure algorithm treats metadata as fully opaque either way).
-/

namespace CopierTemplate

/-! ### Association-list dictionaries (model of Python `dict` / `frozendict`) -/

/-- First-match lookup, the model of Python `d[k]` / `d.get(k)`. -/
def Dict.get? (d : List (String × String)) (k : String) : Option String :=
  (d.find? (fun p => p.1 == k)).map Prod.snd

/-- Model of Python `k in d`. -/
def Dict.hasKey (d : List (String × String)) (k : String) : Bool :=
  d.any (fun p => p.1 == k)

/-- One entry of the left operand of `old | new` after the merge: it keeps
its key and takes `new`'s value when `new` has the key. -/
def Dict.override (new : List (String × String)) (p : String × String) :
    String × String :=
  (p.1, (Dict.get? new p.1).getD p.2)

/-- Model of Python `old | new` (equivalently `old.update(new)`): keys of
`old` keep their position but take `new`'s value when `new` has the key;
keys only in `new` are appended in `new`'s order. -/
def Dict.union (old new : List (String × String)) : List (String × String) :=
  old.map (Dict.override new) ++ new.filter (fun p => !(Dict.hasKey old p.1))

/-- Model of Python `d.keys()` (in insertion order). -/
def Dict.keys (d : List (String × String)) : List String := d.map Prod.fst

/-! ### Raw YAML values and `Config.from_yaml` -/

/-- One value of the raw (untrusted) config mapping, mirroring the source's
`RawConfig = Mapping[str, Sequence[str] | Mapping[str, Any] | None]`, plus
the `str` case: a Python `str` is itself a `Sequence`, which matters for
`Config.from_yaml`'s type check. -/
inductive RawVal where
  | none
  | str (s : String)
  | seq (xs : List String)
  | map (m : List (String × String))
deriving DecidableEq

/-- The raw form of a config, a mapping from field name to raw value. -/
abbrev RawConfig := List (String × RawVal)

/-- Model of `data.get(key)` on a raw config. -/
def rawGet (data : RawConfig) (key : String) : Option RawVal :=
  (List.find? (fun p => p.1 == key) data).map Prod.snd

/-- Python truthiness of a raw value: `None`, `""`, `[]` and `{}` are falsy. -/
def RawVal.isFalsy : RawVal → Bool
  | .none => true
  | .str s => s.isEmpty
  | .seq xs => xs.isEmpty
  | .map m => m.isEmpty

/-- Python `type(v)` as it appears in the error messages of
`Config.from_yaml`. -/
def RawVal.pyType : RawVal → String
  | .none => "NoneType"
  | .str _ => "str"
  | .seq _ => "list"
  | .map _ => "dict"

/-- The set of the single-character strings of `s`: Python
`frozenset("shell") = {"s", "h", "e", "l"}`. -/
def charStrings (s : String) : Finset String :=
  (s.toList.map (fun c => String.mk [c])).toFinset

/-- The `TypeError` message raised by `_set` in `Config.from_yaml`. -/
def setTypeError (key ty : String) : String :=
  "Config key '" ++ key ++ "' is " ++ ty ++ " (wanted Sequence[str] | None)"

/-- The `TypeError` message raised by `_dict` in `Config.from_yaml`. -/
def dictTypeError (key ty : String) : String :=
  "Config key '" ++ key ++ "' is " ++ ty ++ " (wanted Mapping[str, Any] | None)"

/-- The `_set` helper of `Config.from_yaml`:
`v = data.get(key, []) or []`, reject a `Mapping`, otherwise `frozenset(v)`
(a `str` is a `Sequence` of its characters). -/
def setField (data : RawConfig) (key : String) : Except String (Finset String) :=
  let v0 := (rawGet data key).getD (RawVal.seq [])
  let v := if v0.isFalsy then RawVal.seq [] else v0
  match v with
  | .map _ => .error (setTypeError key "dict")
  | .str s => .ok (charStrings s)
  | .seq xs => .ok xs.toFinset
  | .none => .ok ∅

/-- The `_dict` helper of `Config.from_yaml`:
`v = data.get(key, {}) or {}`, reject anything that is not a `Mapping`,
otherwise `frozendict(v)`. -/
def dictField (data : RawConfig) (key : String) :
    Except String (List (String × String)) :=
  let v0 := (rawGet data key).getD (RawVal.map [])
  let v := if v0.isFalsy then RawVal.map [] else v0
  match v with
  | .map m => .ok m
  | other => .error (dictTypeError key other.pyType)

/-- The parsed, immutable config: `Config` in the source. -/
structure Config where
  file_types : Finset String
  tools : Finset String
  metadata : List (String × String)
deriving DecidableEq

/-- `Config.from_yaml`: parse the three fields in source order
(`file_types`, `tools`, `metadata`), propagating the first `TypeError`. -/
def Config.from_yaml (data : RawConfig) : Except String Config :=
  match setField data "file_types" with
  | .error e => .error e
  | .ok fts =>
    match setField data "tools" with
    | .error e => .error e
    | .ok tools =>
      match dictField data "metadata" with
      | .error e => .error e
      | .ok meta => .ok ⟨fts, tools, meta⟩

/-- The serialized form produced by `Config.to_yaml`: both id lists sorted. -/
structure YamlConfig where
  file_types : List String
  tools : List String
  metadata : List (String × String)
deriving DecidableEq

/-- `Config.to_yaml`: sorted `file_types` and `tools`, metadata as-is. -/
def Config.to_yaml (c : Config) : YamlConfig :=
  ⟨c.file_types.sort (· ≤ ·), c.tools.sort (· ≤ ·), c.metadata⟩

/-! ### The dependency Registry -/

/-- `FileType` of the source. -/
structure FileType where
  tools : Finset String
  tags : Finset String
deriving DecidableEq

/-- `Tool` of the source; defaulted fields mirror the dataclass defaults. -/
structure Tool where
  config_file_types : Finset String
  installed_by : Option String
  requires : Finset String := ∅
  tags : Finset String := ∅
  file_regexes : Finset String := ∅
  python_packages : List (String × String) := []
  node_packages : List (String × String) := []
deriving DecidableEq

namespace ConfigExtension

/-- `ConfigExtension._FILE_TYPES`, transcribed entry by entry. -/
def FILE_TYPES : List (String × FileType) := [
  ("shell", { tools := {"shellcheck", "shfmt"}, tags := {"shell"} }),
  ("python", { tools := {"ruff", "mypy", "ast-grep"}, tags := {"python", "pyi"} }),
  ("javascript", { tools := {"prettier", "eslint"}, tags := {"javascript"} }),
  ("html", { tools := {"prettier", "htmlvalidate"}, tags := {"html"} }),
  ("css", { tools := {"prettier", "stylelint"}, tags := {"css"} }),
  ("markdown", { tools := {"prettier", "markdownlint"}, tags := {"markdown"} }),
  ("json", { tools := {"prettier"}, tags := {"json"} }),
  ("yaml", { tools := {"prettier", "yamllint"}, tags := {"yaml"} }),
  ("toml", { tools := {"tombi"}, tags := {"toml"} })]

/-- `ConfigExtension._TOOLS`, transcribed entry by entry. -/
def TOOLS : List (String × Tool) := [
  ("uv", { config_file_types := {"toml", "shell", "python"},
           installed_by := none,
           requires := {"python-license-checker"},
           python_packages := [("frozendict", "2.4.6"), ("packaging", "25.0")] }),
  ("copier", { config_file_types := {"yaml"},
               installed_by := some "uv",
               python_packages := [("cookiecutter", "2.6.0"), ("copier", "9.10.2"),
                 ("copier-template-extensions", "0.3.3"), ("identify", "2.6.15")] }),
  ("pre-commit", { config_file_types := {"yaml"},
                   installed_by := some "uv",
                   python_packages := [("pre-commit", "4.3.0")] }),
  ("python-license-checker", { config_file_types := ∅,
                               installed_by := some "uv",
                               python_packages := [("licensecheck", "2025.1.0")] }),
  ("npm", { config_file_types := {"json", "shell"},
            installed_by := none,
            requires := {"node-license-checker"} }),
  ("node-license-checker", { config_file_types := ∅,
                             installed_by := some "npm",
                             node_packages := [("license-checker-rseidelsohn", "4.4.2")] }),
  ("prettier", { config_file_types := {"json"},
                 installed_by := some "npm",
                 node_packages := [("prettier", "3.6.2")] }),
  ("shellcheck", { config_file_types := ∅,
                   installed_by := some "uv",
                   python_packages := [("shellcheck-py", "0.11.0.1")] }),
  ("shfmt", { config_file_types := ∅, installed_by := none }),
  ("bats", { config_file_types := {"shell"},
             installed_by := some "npm",
             tags := {"bats"},
             node_packages := [("bats", "1.12.0"), ("bats-assert", "2.2.0"),
               ("bats-support", "0.3.0")] }),
  ("ruff", { config_file_types := {"toml"},
             installed_by := some "uv",
             python_packages := [("ruff", "0.14.0")] }),
  ("mypy", { config_file_types := {"toml"},
             installed_by := some "uv",
             python_packages := [("mypy", "1.18.2")] }),
  ("pytest", { config_file_types := {"toml"},
               installed_by := some "uv",
               file_regexes := {"(.*/)?conftest\\.py"},
               python_packages := [("pytest", "8.4.2"), ("pytest-cov", "7.0.0"),
                 ("pytest-custom_exit_code", "0.3.0")] }),
  ("eslint", { config_file_types := {"javascript"},
               installed_by := some "npm",
               node_packages := [("@eslint/compat", "1.4.0"), ("@eslint/js", "9.37.0"),
                 ("eslint", "9.37.0"), ("eslint-config-prettier", "10.1.8"),
                 ("globals", "16.4.0")] }),
  ("htmlvalidate", { config_file_types := {"json"},
                     installed_by := some "npm",
                     node_packages := [("html-validate", "10.1.1")] }),
  ("stylelint", { config_file_types := {"json"},
                  installed_by := some "npm",
                  node_packages := [("stylelint", "16.25.0"),
                    ("stylelint-config-standard", "39.0.1")] }),
  ("markdownlint", { config_file_types := {"json"},
                     installed_by := some "npm",
                     node_packages := [("markdownlint-cli2", "0.18.1")] }),
  ("yamllint", { config_file_types := {"yaml"},
                 installed_by := some "uv",
                 python_packages := [("yamllint", "1.37.1")] }),
  ("tombi", { config_file_types := {"toml"},
              installed_by := some "uv",
              python_packages := [("tombi", "0.6.25")] }),
  ("ast-grep", { config_file_types := {"yaml"},
                 installed_by := some "uv",
                 python_packages := [("ast-grep-cli", "0.39.6")],
                 file_regexes := {"\\.ast_grep/.*"} }),
  ("typos", { config_file_types := {"toml"},
              installed_by := some "uv",
              python_packages := [("typos", "1.38.1")] }),
  ("bump-my-version", { config_file_types := {"toml"},
                        installed_by := some "uv",
                        python_packages := [("bump-my-version", "1.2.4")] }),
  ("gitleaks", { config_file_types := {"toml"}, installed_by := none }),
  ("github-actions", { config_file_types := {"yaml"},
                       installed_by := none,
                       requires := {"actionlint", "zizmor", "gha-update"},
                       file_regexes := {"\\.github/workflows/.*.yml"} }),
  ("actionlint", { config_file_types := ∅, installed_by := none }),
  ("zizmor", { config_file_types := ∅,
               installed_by := some "uv",
               python_packages := [("zizmor", "1.14.2")] }),
  ("gha-update", { config_file_types := ∅,
                   installed_by := some "uv",
                   python_packages := [("gha-update", "0.2.0")] }),
  ("gitlint", { config_file_types := ∅,
                installed_by := some "uv",
                python_packages := [("gitlint", "0.19.1")] })]

/-- Registry lookup `ConfigExtension._FILE_TYPES[id]`; `none` models the
`KeyError` the Python mapping access raises for an absent id. -/
def lookupFT (k : String) : Option FileType :=
  (FILE_TYPES.find? (fun p => p.1 == k)).map Prod.snd

/-- Registry lookup `ConfigExtension._TOOLS[id]`; `none` models `KeyError`. -/
def lookupTool (k : String) : Option Tool :=
  (TOOLS.find? (fun p => p.1 == k)).map Prod.snd

/-- The file-type ids of the Registry. -/
def ftKeys : Finset String := (FILE_TYPES.map Prod.fst).toFinset

/-- The tool ids of the Registry. -/
def toolKeys : Finset String := (TOOLS.map Prod.fst).toFinset

/-- The tools one closure iteration adds for a present tool: its truthy
`installed_by` (Python `if installed_by:`) and its `requires` set. -/
def toolEdges (t : Tool) : Finset String :=
  (match t.installed_by with
   | some s => if s.isEmpty then ∅ else {s}
   | none => ∅) ∪ t.requires

/-- All tools pulled in by the present file types
(loop `for file_type in new_file_types`). -/
def ftPull (fts : Finset String) : Finset String :=
  fts.biUnion (fun ft => (lookupFT ft).elim ∅ FileType.tools)

/-- All tools pulled in by the present tools' `installed_by`/`requires`
edges (loop `for tool in new_tools` building `tools_to_add`). -/
def edgePull (tools : Finset String) : Finset String :=
  tools.biUnion (fun t => (lookupTool t).elim ∅ toolEdges)

/-- All file types pulled in by the present tools' `config_file_types`
(the final loop of an iteration). -/
def cfgPull (tools : Finset String) : Finset String :=
  tools.biUnion (fun t => (lookupTool t).elim ∅ Tool.config_file_types)

/-- One iteration of the `while True` loop of `expand_config`.  The three
subset guards model the `KeyError` a Registry lookup raises on an unknown
id, at exactly the three places the source performs lookups: over the
current file types, over `new_tools` before `tools_to_add` is merged, and
over the merged `new_tools`. -/
def expandStep (fts tools : Finset String) :
    Option (Finset String × Finset String) :=
  if fts ⊆ ftKeys then
    let newTools := tools ∪ ftPull fts
    if newTools ⊆ toolKeys then
      let newTools2 := newTools ∪ edgePull newTools
      if newTools2 ⊆ toolKeys then
        some (fts ∪ cfgPull newTools2, newTools2)
      else none
    else none
  else none

/-- The `while True` loop: iterate `expandStep` until neither set changes.
`none` models a raised `KeyError` (or exhausted fuel, which
`expand_terminates` below shows never happens: the sets only grow inside
the Registry's finite id vocabulary). -/
def expandLoop : Nat → Finset String × Finset String →
    Option (Finset String × Finset String)
  | 0, _ => none
  | Nat.succ n, st =>
    match expandStep st.1 st.2 with
    | none => none
    | some st' => if st' = st then some st' else expandLoop n st'

/-- Fuel for `expandLoop`: the Registry vocabulary holds 9 file types and
28 tools, the working sets only grow, so at most 37 growing iterations can
happen before the final no-change iteration. -/
def FUEL : Nat := 38

/-- `expand_config` after parsing: seed with the unions of the two configs'
sets, run the closure loop, and overlay `existing.metadata` with
`new.metadata` (`existing.metadata | new.metadata`). -/
def expandCore (new existing : Config) : Option Config :=
  (expandLoop FUEL (existing.file_types ∪ new.file_types,
      existing.tools ∪ new.tools)).map
    (fun st => ⟨st.1, st.2, Dict.union existing.metadata new.metadata⟩)

/-- `ConfigExtension.expand_config`: parse both raw configs, expand, and
serialize via `Config.to_yaml`.  A `KeyError` from a Registry lookup is an
uncaught exception in the source; it is modelled as an `.error`. -/
def expand_config (newRaw existingRaw : RawConfig) :
    Except String YamlConfig :=
  match Config.from_yaml newRaw with
  | .error e => .error e
  | .ok new =>
    match Config.from_yaml existingRaw with
    | .error e => .error e
    | .ok existing =>
      match expandCore new existing with
      | some c => .ok c.to_yaml
      | none => .error "KeyError"

/-- `ConfigExtension._packages`: walk the Registry's tool table in order
and `update` the accumulator with the selected package map of every tool
present in `config.tools`. -/
def packagesOf (sel : Tool → List (String × String)) (tools : Finset String) :
    List (String × String) :=
  TOOLS.foldl (fun out p => if p.1 ∈ tools then Dict.union out (sel p.2) else out) []

/-- `ConfigExtension.python_packages`. -/
def python_packages (config : RawConfig) :
    Except String (List (String × String)) :=
  (Config.from_yaml config).map (fun c => packagesOf Tool.python_packages c.tools)

/-- `ConfigExtension.node_packages`. -/
def node_packages (config : RawConfig) :
    Except String (List (String × String)) :=
  (Config.from_yaml config).map (fun c => packagesOf Tool.node_packages c.tools)

end ConfigExtension

/-! ### Evaluation helpers

Equalities between computed and literal `Config`/`YamlConfig` values are
assembled from their components: component goals are plain `Finset`,
`List` or `Bool` equalities, which the kernel can evaluate. -/

theorem option_config_eq_some (o : Option Config) (F T : Finset String)
    (M : List (String × String)) (h1 : o.isSome = true)
    (hF : o.elim ∅ Config.file_types = F) (hT : o.elim ∅ Config.tools = T)
    (hM : o.elim [] Config.metadata = M) : o = some ⟨F, T, M⟩ := by
  cases o with
  | none => exact absurd h1 (by simp)
  | some c =>
    cases c
    simp only [Option.elim] at hF hT hM
    subst hF hT hM
    rfl

theorem except_config_eq_ok (e : Except String Config) (F T : Finset String)
    (M : List (String × String)) (h1 : e.toOption.isSome = true)
    (hF : e.toOption.elim ∅ Config.file_types = F)
    (hT : e.toOption.elim ∅ Config.tools = T)
    (hM : e.toOption.elim [] Config.metadata = M) : e = .ok ⟨F, T, M⟩ := by
  cases e with
  | error err => exact absurd h1 (by simp [Except.toOption])
  | ok c =>
    cases c
    simp only [Except.toOption, Option.elim] at hF hT hM
    subst hF hT hM
    rfl

/-- A kernel-evaluable sortedness check for string lists: `String` order is
compared through `toList`, whose lexicographic order the kernel can
evaluate. -/
def chainLeB : List String → Bool
  | [] => true
  | [_] => true
  | a :: b :: rest => (decide (a.toList ≤ b.toList)) && chainLeB (b :: rest)

theorem sorted_of_chainLeB : ∀ (l : List String), chainLeB l = true →
    l.Sorted (· ≤ ·)
  | [], _ => List.sorted_nil
  | [a], _ => List.sorted_singleton a
  | a :: b :: rest, h => by
    simp only [chainLeB, Bool.and_eq_true, decide_eq_true_eq] at h
    have hab : a ≤ b := String.le_iff_toList_le.mpr h.1
    have hs := sorted_of_chainLeB (b :: rest) h.2
    rw [List.sorted_cons]
    refine ⟨fun c hc => ?_, hs⟩
    rcases List.mem_cons.mp hc with rfl | hc2
    · exact hab
    · exact le_trans hab ((List.sorted_cons.mp hs).1 c hc2)

theorem to_yaml_eq (c : Config) (fl tl : List String)
    (hfn : fl.Nodup) (hfs : chainLeB fl = true) (hf : c.file_types = fl.toFinset)
    (htn : tl.Nodup) (hts : chainLeB tl = true) (ht : c.tools = tl.toFinset) :
    c.to_yaml = ⟨fl, tl, c.metadata⟩ := by
  unfold Config.to_yaml
  rw [hf, ht, (List.toFinset_sort (· ≤ ·) hfn).mpr (sorted_of_chainLeB fl hfs),
    (List.toFinset_sort (· ≤ ·) htn).mpr (sorted_of_chainLeB tl hts)]

/-! ### Dictionary lemmas: `Dict.union` behaves as Python `old | new` -/

theorem Dict.hasKey_iff (d : List (String × String)) (k : String) :
    Dict.hasKey d k = true ↔ k ∈ Dict.keys d := by
  simp [Dict.hasKey, Dict.keys, List.any_eq_true, List.mem_map]

theorem Dict.find?_eq_none_of_hasKey (d : List (String × String)) (k : String)
    (h : Dict.hasKey d k = false) : d.find? (fun p => p.1 == k) = none := by
  rw [List.find?_eq_none]
  intro p hp hpk
  rw [Dict.hasKey, List.any_eq_false] at h
  exact h p hp hpk

theorem Dict.hasKey_eq_false (d : List (String × String)) (k : String)
    (h : d.find? (fun p => p.1 == k) = none) : Dict.hasKey d k = false := by
  rw [Dict.hasKey, List.any_eq_false]
  rw [List.find?_eq_none] at h
  exact h

theorem find?_map_fst (old : List (String × String))
    (g : String × String → String × String) (hg : ∀ p, (g p).1 = p.1)
    (k : String) :
    (old.map g).find? (fun p => p.1 == k) =
      (old.find? (fun p => p.1 == k)).map g := by
  rw [List.find?_map]
  have hc : ((fun p : String × String => p.1 == k) ∘ g) =
      (fun p : String × String => p.1 == k) := by
    funext p
    simp [Function.comp, hg]
  rw [hc]

theorem Dict.get?_union_right (old new : List (String × String)) (k v : String)
    (h : Dict.get? new k = some v) :
    Dict.get? (Dict.union old new) k = some v := by
  unfold Dict.union Dict.get?
  rw [List.find?_append, find?_map_fst old (Dict.override new) (fun p => rfl) k]
  cases hf : old.find? (fun p => p.1 == k) with
  | some q =>
    have hq1 : q.1 = k := by simpa using List.find?_some hf
    simp [Option.or, Dict.override, hq1, h]
  | none =>
    simp only [Option.map_none', Option.none_or]
    have hkey : Dict.hasKey old k = false := Dict.hasKey_eq_false old k hf
    rw [List.find?_filter]
    have hpred : (fun a : String × String =>
        decide ((!Dict.hasKey old a.1) = true ∧ (a.1 == k) = true)) =
        (fun a : String × String => a.1 == k) := by
      funext a
      by_cases hak : a.1 = k
      · simp [hak, hkey]
      · simp [hak]
    rw [hpred]
    exact h

theorem Dict.get?_union_left (old new : List (String × String)) (k : String)
    (h : Dict.get? new k = none) :
    Dict.get? (Dict.union old new) k = Dict.get? old k := by
  have hnew : new.find? (fun p => p.1 == k) = none := by
    simp only [Dict.get?] at h
    exact Option.map_eq_none'.mp h
  unfold Dict.union Dict.get?
  rw [List.find?_append, find?_map_fst old (Dict.override new) (fun p => rfl) k]
  cases hf : old.find? (fun p => p.1 == k) with
  | some q =>
    have hq1 : q.1 = k := by simpa using List.find?_some hf
    simp [Option.or, Dict.override, hq1, h]
  | none =>
    simp only [Option.map_none', Option.none_or]
    have hfil : (new.filter (fun p => !Dict.hasKey old p.1)).find?
        (fun p => p.1 == k) = none := by
      rw [List.find?_eq_none]
      intro p hp
      rw [List.find?_eq_none] at hnew
      exact hnew p (List.mem_of_mem_filter hp)
    simp [hfil]

theorem Dict.mem_keys_union (a b : List (String × String)) (k : String) :
    k ∈ Dict.keys (Dict.union a b) ↔ k ∈ Dict.keys a ∨ k ∈ Dict.keys b := by
  have hcomp : (Prod.fst ∘ Dict.override b) =
      (Prod.fst : String × String → String) := funext fun p => rfl
  unfold Dict.union Dict.keys
  rw [List.map_append, List.mem_append, List.map_map, hcomp]
  constructor
  · rintro (h | h)
    · exact Or.inl h
    · obtain ⟨p, hp, hk⟩ := List.mem_map.mp h
      exact Or.inr (List.mem_map.mpr ⟨p, (List.mem_filter.mp hp).1, hk⟩)
  · rintro (h | h)
    · exact Or.inl h
    · by_cases ha : k ∈ List.map Prod.fst a
      · exact Or.inl ha
      · obtain ⟨p, hp, hk⟩ := List.mem_map.mp h
        refine Or.inr (List.mem_map.mpr ⟨p, List.mem_filter.mpr ⟨hp, ?_⟩, hk⟩)
        have hfalse : Dict.hasKey a p.1 = false := by
          cases hh : Dict.hasKey a p.1
          · rfl
          · exfalso
            apply ha
            have hmem := (Dict.hasKey_iff a p.1).mp hh
            rw [hk] at hmem
            exact hmem
        rw [hfalse]
        rfl

namespace ConfigExtension

theorem expand_config_eq_ok (newRaw existingRaw : RawConfig)
    (new existing c : Config) (fl tl : List String)
    (h1 : Config.from_yaml newRaw = .ok new)
    (h2 : Config.from_yaml existingRaw = .ok existing)
    (h3 : expandCore new existing = some c)
    (hfn : fl.Nodup) (hfs : chainLeB fl = true) (hf : c.file_types = fl.toFinset)
    (htn : tl.Nodup) (hts : chainLeB tl = true) (ht : c.tools = tl.toFinset) :
    expand_config newRaw existingRaw = .ok ⟨fl, tl, c.metadata⟩ := by
  unfold expand_config
  rw [h1]
  rw [h2]
  show (match expandCore new existing with
    | some c => Except.ok c.to_yaml
    | none => Except.error "KeyError") = _
  rw [h3]
  exact congrArg Except.ok (to_yaml_eq c fl tl hfn hfs hf htn hts ht)

/-! ### Registry lookup lemmas -/

theorem lookup_mem_assoc {α : Type} (L : List (String × α)) (k : String) (v : α)
    (h : (L.find? (fun p => p.1 == k)).map Prod.snd = some v) : (k, v) ∈ L := by
  cases hf : L.find? (fun p => p.1 == k) with
  | none => rw [hf] at h; cases h
  | some q =>
    rw [hf] at h
    have hq1 : q.1 = k := by simpa using List.find?_some hf
    have hq2 : q.2 = v := by simpa using h
    have hm := List.mem_of_find?_eq_some hf
    have hqe : q = (k, v) := by
      obtain ⟨a, b⟩ := q
      simp_all
    rw [hqe] at hm
    exact hm

theorem mem_assoc_keys {α : Type} (L : List (String × α)) (k : String) :
    k ∈ (L.map Prod.fst).toFinset ↔
      ∃ v, (L.find? (fun p => p.1 == k)).map Prod.snd = some v := by
  rw [List.mem_toFinset, List.mem_map]
  constructor
  · rintro ⟨p, hp, rfl⟩
    have hsome : (L.find? (fun q => q.1 == p.1)).isSome :=
      List.find?_isSome.mpr ⟨p, hp, by simp⟩
    obtain ⟨q, hq⟩ := Option.isSome_iff_exists.mp hsome
    exact ⟨q.2, by rw [hq]; rfl⟩
  · rintro ⟨v, hv⟩
    cases hf : L.find? (fun p => p.1 == k) with
    | none => rw [hf] at hv; cases hv
    | some q =>
      exact ⟨q, List.mem_of_find?_eq_some hf, by simpa using List.find?_some hf⟩

theorem mem_ftKeys (k : String) : k ∈ ftKeys ↔ ∃ fd, lookupFT k = some fd :=
  mem_assoc_keys FILE_TYPES k

theorem mem_toolKeys (k : String) : k ∈ toolKeys ↔ ∃ td, lookupTool k = some td :=
  mem_assoc_keys TOOLS k

/-! ### Registry consistency facts (checked over the concrete tables) -/

theorem ft_tools_subset : ∀ p ∈ FILE_TYPES, p.2.tools ⊆ toolKeys := by decide

theorem tool_edges_subset : ∀ p ∈ TOOLS, toolEdges p.2 ⊆ toolKeys := by decide

theorem tool_cfg_subset : ∀ p ∈ TOOLS, p.2.config_file_types ⊆ ftKeys := by decide

theorem no_empty_installer : ∀ p ∈ TOOLS, p.2.installed_by ≠ some "" := by decide

/-! ### Bounds and growth of the pull operators -/

theorem ftPull_subset (fts : Finset String) : ftPull fts ⊆ toolKeys := by
  intro x hx
  rw [ftPull, Finset.mem_biUnion] at hx
  obtain ⟨ft, hft, hx⟩ := hx
  cases hl : lookupFT ft with
  | none => rw [hl] at hx; simp [Option.elim] at hx
  | some fd =>
    rw [hl] at hx
    simp only [Option.elim] at hx
    exact ft_tools_subset (ft, fd) (lookup_mem_assoc _ _ _ hl) hx

theorem edgePull_subset (tools : Finset String) : edgePull tools ⊆ toolKeys := by
  intro x hx
  rw [edgePull, Finset.mem_biUnion] at hx
  obtain ⟨t, htm, hx⟩ := hx
  cases hl : lookupTool t with
  | none => rw [hl] at hx; simp [Option.elim] at hx
  | some td =>
    rw [hl] at hx
    simp only [Option.elim] at hx
    exact tool_edges_subset (t, td) (lookup_mem_assoc _ _ _ hl) hx

theorem cfgPull_subset (tools : Finset String) : cfgPull tools ⊆ ftKeys := by
  intro x hx
  rw [cfgPull, Finset.mem_biUnion] at hx
  obtain ⟨t, htm, hx⟩ := hx
  cases hl : lookupTool t with
  | none => rw [hl] at hx; simp [Option.elim] at hx
  | some td =>
    rw [hl] at hx
    simp only [Option.elim] at hx
    exact tool_cfg_subset (t, td) (lookup_mem_assoc _ _ _ hl) hx

/-! ### One-step lemmas -/

theorem expandStep_some_elim {fts tools : Finset String}
    {st' : Finset String × Finset String}
    (h : expandStep fts tools = some st') :
    fts ⊆ ftKeys ∧ (tools ∪ ftPull fts) ⊆ toolKeys ∧
    ((tools ∪ ftPull fts) ∪ edgePull (tools ∪ ftPull fts)) ⊆ toolKeys ∧
    st' = (fts ∪ cfgPull ((tools ∪ ftPull fts) ∪ edgePull (tools ∪ ftPull fts)),
      (tools ∪ ftPull fts) ∪ edgePull (tools ∪ ftPull fts)) := by
  simp only [expandStep] at h
  split_ifs at h with h1 h2 h3
  exact ⟨h1, h2, h3, (Option.some.inj h).symm⟩

theorem expandStep_some_intro (fts tools : Finset String)
    (h1 : fts ⊆ ftKeys) (h2 : tools ⊆ toolKeys) :
    expandStep fts tools = some
      (fts ∪ cfgPull ((tools ∪ ftPull fts) ∪ edgePull (tools ∪ ftPull fts)),
        (tools ∪ ftPull fts) ∪ edgePull (tools ∪ ftPull fts)) := by
  have hA : (tools ∪ ftPull fts) ⊆ toolKeys :=
    Finset.union_subset h2 (ftPull_subset fts)
  have hB : ((tools ∪ ftPull fts) ∪ edgePull (tools ∪ ftPull fts)) ⊆ toolKeys :=
    Finset.union_subset hA (edgePull_subset _)
  simp only [expandStep]
  rw [if_pos h1, if_pos hA, if_pos hB]

theorem expandStep_grows {fts tools : Finset String}
    {st' : Finset String × Finset String}
    (h : expandStep fts tools = some st') : fts ⊆ st'.1 ∧ tools ⊆ st'.2 := by
  obtain ⟨-, -, -, rfl⟩ := expandStep_some_elim h
  exact ⟨Finset.subset_union_left,
    Finset.subset_union_left.trans Finset.subset_union_left⟩

theorem expandStep_bounded {fts tools : Finset String}
    {st' : Finset String × Finset String}
    (h : expandStep fts tools = some st') : st'.1 ⊆ ftKeys ∧ st'.2 ⊆ toolKeys := by
  obtain ⟨hf, -, hB, rfl⟩ := expandStep_some_elim h
  exact ⟨Finset.union_subset hf (cfgPull_subset _), hB⟩

/-- The closure property stated by the spec: (a) the tools of every present
file type are present, (b) every present tool's truthy `installed_by` and
`requires` are present, (c) every present tool's `config_file_types` are
present. -/
def Closed (F T : Finset String) : Prop :=
  (∀ ft ∈ F, ∀ fd, lookupFT ft = some fd → fd.tools ⊆ T) ∧
  (∀ t ∈ T, ∀ td, lookupTool t = some td →
    (∀ u, td.installed_by = some u → u ∈ T) ∧
    td.requires ⊆ T ∧ td.config_file_types ⊆ F)

theorem closed_of_step_fixed {F T : Finset String}
    (h : expandStep F T = some (F, T)) : Closed F T := by
  obtain ⟨hf, hA, hB, heq⟩ := expandStep_some_elim h
  have hT : T = (T ∪ ftPull F) ∪ edgePull (T ∪ ftPull F) := congrArg Prod.snd heq
  have hF : F = F ∪ cfgPull ((T ∪ ftPull F) ∪ edgePull (T ∪ ftPull F)) :=
    congrArg Prod.fst heq
  have hcfg : cfgPull ((T ∪ ftPull F) ∪ edgePull (T ∪ ftPull F)) ⊆ F :=
    Finset.union_eq_left.mp hF.symm
  constructor
  · intro ft hft fd hl x hx
    have hmem : x ∈ ftPull F :=
      Finset.mem_biUnion.mpr ⟨ft, hft, by rw [hl]; simpa [Option.elim] using hx⟩
    rw [hT]
    exact Finset.mem_union_left _ (Finset.mem_union_right _ hmem)
  · intro t ht td hl
    have htd : (t, td) ∈ TOOLS := lookup_mem_assoc _ _ _ hl
    have htX : t ∈ T ∪ ftPull F := Finset.mem_union_left _ ht
    have hedge : ∀ u, u ∈ toolEdges td → u ∈ T := by
      intro u hu
      have hmem : u ∈ edgePull (T ∪ ftPull F) :=
        Finset.mem_biUnion.mpr ⟨t, htX, by rw [hl]; simpa [Option.elim] using hu⟩
      rw [hT]
      exact Finset.mem_union_right _ hmem
    refine ⟨?_, ?_, ?_⟩
    · intro u hu
      have hne : u ≠ "" := by
        intro h0
        subst h0
        exact no_empty_installer (t, td) htd (by rw [hu])
      have hie : u.isEmpty = false := by
        cases he : u.isEmpty
        · rfl
        · exact absurd ((String.isEmpty_iff u).mp he) hne
      refine hedge u ?_
      rw [toolEdges, hu]
      simp [hie]
    · intro u hu
      exact hedge u (Finset.mem_union_right _ hu)
    · intro x hx
      have htmem : t ∈ (T ∪ ftPull F) ∪ edgePull (T ∪ ftPull F) := by
        rw [← hT]
        exact ht
      exact hcfg (Finset.mem_biUnion.mpr
        ⟨t, htmem, by rw [hl]; simpa [Option.elim] using hx⟩)

/-! ### Staying below a closed superset -/

theorem ftPull_below {F T fts : Finset String} (hC : Closed F T) (hf : fts ⊆ F) :
    ftPull fts ⊆ T := by
  intro x hx
  rw [ftPull, Finset.mem_biUnion] at hx
  obtain ⟨ft, hft, hx⟩ := hx
  cases hl : lookupFT ft with
  | none => rw [hl] at hx; simp [Option.elim] at hx
  | some fd =>
    rw [hl] at hx
    simp only [Option.elim] at hx
    exact hC.1 ft (hf hft) fd hl hx

theorem edgePull_below {F T tools : Finset String} (hC : Closed F T)
    (ht : tools ⊆ T) : edgePull tools ⊆ T := by
  intro x hx
  rw [edgePull, Finset.mem_biUnion] at hx
  obtain ⟨t, htm, hx⟩ := hx
  cases hl : lookupTool t with
  | none => rw [hl] at hx; simp [Option.elim] at hx
  | some td =>
    rw [hl] at hx
    simp only [Option.elim] at hx
    obtain ⟨hinst, hreq, -⟩ := hC.2 t (ht htm) td hl
    rw [toolEdges] at hx
    rcases Finset.mem_union.mp hx with hx | hx
    · cases hib : td.installed_by with
      | none => rw [hib] at hx; simp at hx
      | some s =>
        rw [hib] at hx
        by_cases hse : s.isEmpty
        · simp [hse] at hx
        · simp [hse] at hx
          subst hx
          exact hinst _ hib
    · exact hreq hx

theorem cfgPull_below {F T tools : Finset String} (hC : Closed F T)
    (ht : tools ⊆ T) : cfgPull tools ⊆ F := by
  intro x hx
  rw [cfgPull, Finset.mem_biUnion] at hx
  obtain ⟨t, htm, hx⟩ := hx
  cases hl : lookupTool t with
  | none => rw [hl] at hx; simp [Option.elim] at hx
  | some td =>
    rw [hl] at hx
    simp only [Option.elim] at hx
    exact (hC.2 t (ht htm) td hl).2.2 hx

theorem expandStep_below {F T fts tools : Finset String} (hC : Closed F T)
    (hf : fts ⊆ F) (ht : tools ⊆ T) {st' : Finset String × Finset String}
    (h : expandStep fts tools = some st') : st'.1 ⊆ F ∧ st'.2 ⊆ T := by
  obtain ⟨-, -, -, rfl⟩ := expandStep_some_elim h
  have hA : (tools ∪ ftPull fts) ⊆ T := Finset.union_subset ht (ftPull_below hC hf)
  have hB : ((tools ∪ ftPull fts) ∪ edgePull (tools ∪ ftPull fts)) ⊆ T :=
    Finset.union_subset hA (edgePull_below hC hA)
  exact ⟨Finset.union_subset hf (cfgPull_below hC hB), hB⟩

/-! ### Loop lemmas -/

theorem expandLoop_grows : ∀ (n : Nat) (st st'' : Finset String × Finset String),
    expandLoop n st = some st'' → st.1 ⊆ st''.1 ∧ st.2 ⊆ st''.2
  | 0, _, _, h => by cases h
  | Nat.succ n, st, st'', h => by
    simp only [expandLoop] at h
    cases hs : expandStep st.1 st.2 with
    | none => rw [hs] at h; cases h
    | some st' =>
      rw [hs] at h
      replace h : (if st' = st then some st' else expandLoop n st') = some st'' := h
      by_cases heq : st' = st
      · rw [if_pos heq] at h
        cases h
        subst heq
        exact ⟨subset_rfl, subset_rfl⟩
      · rw [if_neg heq] at h
        have ih := expandLoop_grows n st' st'' h
        have hg := expandStep_grows hs
        exact ⟨hg.1.trans ih.1, hg.2.trans ih.2⟩

theorem expandLoop_fixed : ∀ (n : Nat) (st st'' : Finset String × Finset String),
    expandLoop n st = some st'' → expandStep st''.1 st''.2 = some st''
  | 0, _, _, h => by cases h
  | Nat.succ n, st, st'', h => by
    simp only [expandLoop] at h
    cases hs : expandStep st.1 st.2 with
    | none => rw [hs] at h; cases h
    | some st' =>
      rw [hs] at h
      replace h : (if st' = st then some st' else expandLoop n st') = some st'' := h
      by_cases heq : st' = st
      · rw [if_pos heq] at h
        cases h
        subst heq
        exact hs
      · rw [if_neg heq] at h
        exact expandLoop_fixed n st' st'' h

theorem expandLoop_below {F T : Finset String} (hC : Closed F T) :
    ∀ (n : Nat) (st st'' : Finset String × Finset String),
      expandLoop n st = some st'' → st.1 ⊆ F → st.2 ⊆ T →
      st''.1 ⊆ F ∧ st''.2 ⊆ T
  | 0, _, _, h, _, _ => by cases h
  | Nat.succ n, st, st'', h, hf, ht => by
    simp only [expandLoop] at h
    cases hs : expandStep st.1 st.2 with
    | none => rw [hs] at h; cases h
    | some st' =>
      rw [hs] at h
      replace h : (if st' = st then some st' else expandLoop n st') = some st'' := h
      by_cases heq : st' = st
      · rw [if_pos heq] at h
        cases h
        subst heq
        exact ⟨hf, ht⟩
      · rw [if_neg heq] at h
        have hb := expandStep_below hC hf ht hs
        exact expandLoop_below hC n st' st'' h hb.1 hb.2

theorem expandLoop_total : ∀ (n : Nat) (st : Finset String × Finset String),
    st.1 ⊆ ftKeys → st.2 ⊆ toolKeys →
    ftKeys.card - st.1.card + (toolKeys.card - st.2.card) < n →
    ∃ st'', expandLoop n st = some st''
  | 0, _, _, _, hm => absurd hm (by omega)
  | Nat.succ n, st, h1, h2, hm => by
    obtain ⟨st', hs⟩ : ∃ st', expandStep st.1 st.2 = some st' :=
      ⟨_, expandStep_some_intro st.1 st.2 h1 h2⟩
    by_cases heq : st' = st
    · refine ⟨st', ?_⟩
      simp only [expandLoop]
      rw [hs]
      show (if st' = st then some st' else expandLoop n st') = some st'
      rw [if_pos heq]
    · have hg := expandStep_grows hs
      have hb := expandStep_bounded hs
      have h1le := Finset.card_le_card hg.1
      have h2le := Finset.card_le_card hg.2
      have hb1 := Finset.card_le_card hb.1
      have hb2 := Finset.card_le_card hb.2
      have hk1 := Finset.card_le_card h1
      have hk2 := Finset.card_le_card h2
      have hlt : st.1.card + st.2.card < st'.1.card + st'.2.card := by
        have hne : st.1 ≠ st'.1 ∨ st.2 ≠ st'.2 := by
          by_contra hcon
          push_neg at hcon
          exact heq (Prod.ext hcon.1.symm hcon.2.symm)
        rcases hne with hne | hne
        · have := Finset.card_lt_card (HasSubset.Subset.ssubset_of_ne hg.1 hne)
          omega
        · have := Finset.card_lt_card (HasSubset.Subset.ssubset_of_ne hg.2 hne)
          omega
      have hm' : ftKeys.card - st'.1.card + (toolKeys.card - st'.2.card) < n := by
        omega
      obtain ⟨st'', h''⟩ := expandLoop_total n st' hb.1 hb.2 hm'
      refine ⟨st'', ?_⟩
      simp only [expandLoop]
      rw [hs]
      show (if st' = st then some st' else expandLoop n st') = some st''
      rw [if_neg heq]
      exact h''

/-! ### The master lemma about `expandCore` -/

theorem expandCore_spec (new existing : Config)
    (h1 : existing.file_types ∪ new.file_types ⊆ ftKeys)
    (h2 : existing.tools ∪ new.tools ⊆ toolKeys) :
    ∃ c, expandCore new existing = some c ∧
      existing.file_types ∪ new.file_types ⊆ c.file_types ∧
      existing.tools ∪ new.tools ⊆ c.tools ∧
      Closed c.file_types c.tools ∧
      (∀ F T, existing.file_types ∪ new.file_types ⊆ F →
        existing.tools ∪ new.tools ⊆ T → Closed F T →
        c.file_types ⊆ F ∧ c.tools ⊆ T) ∧
      c.metadata = Dict.union existing.metadata new.metadata := by
  have hcard1 : ftKeys.card = 9 := by decide
  have hcard2 : toolKeys.card = 28 := by decide
  obtain ⟨st'', hloop⟩ := expandLoop_total FUEL
    (existing.file_types ∪ new.file_types, existing.tools ∪ new.tools) h1 h2
    (by simp only [FUEL]; rw [hcard1, hcard2]; omega)
  refine ⟨⟨st''.1, st''.2, Dict.union existing.metadata new.metadata⟩,
    ?_, ?_, ?_, ?_, ?_, rfl⟩
  · simp only [expandCore, hloop, Option.map_some']
  · exact (expandLoop_grows _ _ _ hloop).1
  · exact (expandLoop_grows _ _ _ hloop).2
  · exact closed_of_step_fixed (expandLoop_fixed _ _ _ hloop)
  · intro F T hF hT hC
    exact expandLoop_below hC FUEL _ st'' hloop hF hT

/-! ### Where a tool that is no edge target can come from -/

theorem expandLoop_tool_origin (X : String)
    (hq : ∀ p ∈ TOOLS, p.2.installed_by ≠ some X ∧ X ∉ p.2.requires) :
    ∀ (n : Nat) (st st'' : Finset String × Finset String),
      expandLoop n st = some st'' → X ∈ st''.2 →
      X ∈ st.2 ∨ ∃ ft ∈ st''.1, ∃ fd, lookupFT ft = some fd ∧ X ∈ fd.tools
  | 0, _, _, h, _ => by cases h
  | Nat.succ n, st, st'', h, hX => by
    simp only [expandLoop] at h
    cases hs : expandStep st.1 st.2 with
    | none => rw [hs] at h; cases h
    | some st' =>
      rw [hs] at h
      replace h : (if st' = st then some st' else expandLoop n st') = some st'' := h
      by_cases heq : st' = st
      · rw [if_pos heq] at h
        cases h
        subst heq
        exact Or.inl hX
      · rw [if_neg heq] at h
        rcases expandLoop_tool_origin X hq n st' st'' h hX with hX' | hft
        · obtain ⟨-, -, -, hst'⟩ := expandStep_some_elim hs
          subst hst'
          have hgrow := expandLoop_grows n _ st'' h
          rcases Finset.mem_union.mp hX' with hX2 | hXe
          · rcases Finset.mem_union.mp hX2 with hX3 | hXf
            · exact Or.inl hX3
            · rw [ftPull, Finset.mem_biUnion] at hXf
              obtain ⟨ft, hftm, hXf⟩ := hXf
              cases hl : lookupFT ft with
              | none => rw [hl] at hXf; simp [Option.elim] at hXf
              | some fd =>
                rw [hl] at hXf
                simp only [Option.elim] at hXf
                refine Or.inr ⟨ft, ?_, fd, hl, hXf⟩
                exact (Finset.subset_union_left.trans hgrow.1) hftm
          · exfalso
            rw [edgePull, Finset.mem_biUnion] at hXe
            obtain ⟨t, htm, hXe⟩ := hXe
            cases hl : lookupTool t with
            | none => rw [hl] at hXe; simp [Option.elim] at hXe
            | some td =>
              rw [hl] at hXe
              simp only [Option.elim] at hXe
              have htd := lookup_mem_assoc _ _ _ hl
              rw [toolEdges] at hXe
              rcases Finset.mem_union.mp hXe with hXi | hXr
              · cases hib : td.installed_by with
                | none => rw [hib] at hXi; simp at hXi
                | some s =>
                  rw [hib] at hXi
                  by_cases hse : s.isEmpty
                  · simp [hse] at hXi
                  · simp [hse] at hXi
                    subst hXi
                    exact (hq (t, td) htd).1 hib
              · exact (hq (t, td) htd).2 hXr
        · exact Or.inr hft

/-! ### The key set computed by `_packages` -/

theorem mem_keys_packagesOf (sel : Tool → List (String × String))
    (tools : Finset String) (k : String) :
    k ∈ Dict.keys (packagesOf sel tools) ↔
      ∃ p ∈ TOOLS, p.1 ∈ tools ∧ k ∈ Dict.keys (sel p.2) := by
  have haux : ∀ (L : List (String × Tool)) (acc : List (String × String)),
      k ∈ Dict.keys (L.foldl
        (fun out p => if p.1 ∈ tools then Dict.union out (sel p.2) else out) acc) ↔
      k ∈ Dict.keys acc ∨ ∃ p ∈ L, p.1 ∈ tools ∧ k ∈ Dict.keys (sel p.2) := by
    intro L
    induction L with
    | nil =>
      intro acc
      simp
    | cons q L ih =>
      intro acc
      rw [List.foldl_cons]
      by_cases hq : q.1 ∈ tools
      · rw [if_pos hq, ih, Dict.mem_keys_union]
        constructor
        · rintro ((h | h) | h)
          · exact Or.inl h
          · exact Or.inr ⟨q, List.mem_cons_self q L, hq, h⟩
          · obtain ⟨p, hp, hmem⟩ := h
            exact Or.inr ⟨p, List.mem_cons_of_mem q hp, hmem⟩
        · rintro (h | h)
          · exact Or.inl (Or.inl h)
          · obtain ⟨p, hp, hpt, hpk⟩ := h
            rcases List.mem_cons.mp hp with rfl | hp2
            · exact Or.inl (Or.inr hpk)
            · exact Or.inr ⟨p, hp2, hpt, hpk⟩
      · rw [if_neg hq, ih]
        constructor
        · rintro (h | h)
          · exact Or.inl h
          · obtain ⟨p, hp, hmem⟩ := h
            exact Or.inr ⟨p, List.mem_cons_of_mem q hp, hmem⟩
        · rintro (h | h)
          · exact Or.inl h
          · obtain ⟨p, hp, hpt, hpk⟩ := h
            rcases List.mem_cons.mp hp with rfl | hp2
            · exact absurd hpt hq
            · exact Or.inr ⟨p, hp2, hpt, hpk⟩
  have hmain := haux TOOLS []
  simpa [packagesOf, Dict.keys] using hmain

/-! ### `Config.from_yaml` field helpers -/

theorem setField_map_error (data : RawConfig) (key : String)
    (m : List (String × String)) (hget : rawGet data key = some (RawVal.map m))
    (hm : m ≠ []) : setField data key = .error (setTypeError key "dict") := by
  have hfalsy : (RawVal.map m).isFalsy = false := by
    cases m with
    | nil => exact absurd rfl hm
    | cons a t => rfl
  simp [setField, hget, hfalsy]

theorem setField_str (data : RawConfig) (key : String) (s : String)
    (hget : rawGet data key = some (RawVal.str s)) :
    setField data key = .ok (charStrings s) := by
  by_cases hse : s = ""
  · subst hse
    simp only [setField, hget, Option.getD_some]
    rfl
  · have hfalsy : (RawVal.str s).isFalsy = false := by
      cases he : s.isEmpty
      · exact he
      · exact absurd ((String.isEmpty_iff s).mp he) hse
    simp [setField, hget, hfalsy]

theorem dictField_nonmap_error (data : RawConfig) (key : String) (v : RawVal)
    (hget : rawGet data key = some v) (hfalsy : v.isFalsy = false)
    (hnm : ∀ m, v ≠ RawVal.map m) :
    dictField data key = .error (dictTypeError key v.pyType) := by
  cases v with
  | none => cases hfalsy
  | map m => exact absurd rfl (hnm m)
  | str s =>
    have hie : s.isEmpty = false := hfalsy
    simp [dictField, hget, RawVal.isFalsy, hie, RawVal.pyType]
  | seq xs =>
    have hie : xs.isEmpty = false := hfalsy
    simp [dictField, hget, RawVal.isFalsy, hie, RawVal.pyType]

theorem from_yaml_error_fst (data : RawConfig) (e : String)
    (h : setField data "file_types" = .error e) :
    Config.from_yaml data = .error e := by
  unfold Config.from_yaml
  rw [h]

theorem from_yaml_error_snd (data : RawConfig) (s : Finset String) (e : String)
    (h1 : setField data "file_types" = .ok s)
    (h2 : setField data "tools" = .error e) :
    Config.from_yaml data = .error e := by
  unfold Config.from_yaml
  rw [h1]
  show (match setField data "tools" with
    | .error e => .error e
    | .ok tools =>
      match dictField data "metadata" with
      | .error e => .error e
      | .ok meta => Except.ok (Config.mk s tools meta)) = Except.error e
  rw [h2]

theorem from_yaml_error_trd (data : RawConfig) (s t : Finset String) (e : String)
    (h1 : setField data "file_types" = .ok s)
    (h2 : setField data "tools" = .ok t)
    (h3 : dictField data "metadata" = .error e) :
    Config.from_yaml data = .error e := by
  unfold Config.from_yaml
  rw [h1]
  show (match setField data "tools" with
    | .error e => .error e
    | .ok tools =>
      match dictField data "metadata" with
      | .error e => .error e
      | .ok meta => Except.ok (Config.mk s tools meta)) = Except.error e
  rw [h2]
  show (match dictField data "metadata" with
    | .error e => .error e
    | .ok meta => Except.ok (Config.mk s t meta)) = Except.error e
  rw [h3]

end ConfigExtension

end CopierTemplate

namespace CopierTemplate

namespace ConfigExtension

/-! ## The claims -/

/-- C1: for every pair of input configs whose file-type and tool ids all
occur in the Registry tables, `expand_config` returns exactly the smallest
superset of `new.file_types ∪ existing.file_types` and
`new.tools ∪ existing.tools` that is closed under the Registry's edges
(file-type→tools, tool→installer/requires, tool→config-file-types), and
no id outside that least closure is included. -/
theorem expand_config_least_closure (new existing : Config)
    (h1 : existing.file_types ∪ new.file_types ⊆ ftKeys)
    (h2 : existing.tools ∪ new.tools ⊆ toolKeys) :
    ∃ c, expandCore new existing = some c ∧
      existing.file_types ∪ new.file_types ⊆ c.file_types ∧
      existing.tools ∪ new.tools ⊆ c.tools ∧
      Closed c.file_types c.tools ∧
      ∀ F T, existing.file_types ∪ new.file_types ⊆ F →
        existing.tools ∪ new.tools ⊆ T → Closed F T →
        c.file_types ⊆ F ∧ c.tools ⊆ T := by
  obtain ⟨c, hc, ha, hb, hcl, hmin, -⟩ := expandCore_spec new existing h1 h2
  exact ⟨c, hc, ha, hb, hcl, hmin⟩

theorem expand_config_least_closure_witness :
    ∃ c, expandCore ⟨∅, ∅, []⟩ ⟨{"shell"}, {"pre-commit"}, []⟩ = some c ∧
      ({"shell"} : Finset String) ∪ ∅ ⊆ c.file_types ∧
      ({"pre-commit"} : Finset String) ∪ ∅ ⊆ c.tools ∧
      Closed c.file_types c.tools ∧
      ∀ F T, ({"shell"} : Finset String) ∪ ∅ ⊆ F →
        ({"pre-commit"} : Finset String) ∪ ∅ ⊆ T → Closed F T →
        c.file_types ⊆ F ∧ c.tools ⊆ T :=
  expand_config_least_closure ⟨∅, ∅, []⟩ ⟨{"shell"}, {"pre-commit"}, []⟩
    (by decide) (by decide)

/-- C2: monotonicity of expand: for all input configs `A` and `B` with ids
resolvable in the Registry, the result of `expand_config(A, B)` has
file types ⊇ `A.file_types ∪ B.file_types` and tools ⊇
`A.tools ∪ B.tools`. -/
theorem expand_config_monotone (A B : Config)
    (h1 : B.file_types ∪ A.file_types ⊆ ftKeys)
    (h2 : B.tools ∪ A.tools ⊆ toolKeys) :
    ∃ c, expandCore A B = some c ∧
      A.file_types ∪ B.file_types ⊆ c.file_types ∧
      A.tools ∪ B.tools ⊆ c.tools := by
  obtain ⟨c, hc, ha, hb, -, -, -⟩ := expandCore_spec A B h1 h2
  refine ⟨c, hc, ?_, ?_⟩
  · rw [Finset.union_comm]
    exact ha
  · rw [Finset.union_comm]
    exact hb

theorem expand_config_monotone_witness :
    ∃ c, expandCore ⟨∅, {"gitlint"}, []⟩ ⟨{"toml"}, ∅, []⟩ = some c ∧
      (∅ : Finset String) ∪ {"toml"} ⊆ c.file_types ∧
      ({"gitlint"} : Finset String) ∪ ∅ ⊆ c.tools :=
  expand_config_monotone ⟨∅, {"gitlint"}, []⟩ ⟨{"toml"}, ∅, []⟩
    (by decide) (by decide)

/-- C3: the concrete scenario `expand_config({}, {file_types: ["shell"],
tools: ["pre-commit"]})`: the output tools contain `shellcheck` and
`shfmt` (from the shell file type) and the transitively pulled installer
`uv` (the installer of `pre-commit`), and do not contain
`markdownlint`. -/
theorem expand_scenario_shell_precommit :
    ∃ c, expand_config []
        [("file_types", RawVal.seq ["shell"]), ("tools", RawVal.seq ["pre-commit"])] =
        .ok c ∧
      "shellcheck" ∈ c.tools ∧ "shfmt" ∈ c.tools ∧ "uv" ∈ c.tools ∧
      "markdownlint" ∉ c.tools := by
  refine ⟨⟨["json", "python", "shell", "toml", "yaml"],
    ["ast-grep", "mypy", "node-license-checker", "npm", "pre-commit", "prettier",
     "python-license-checker", "ruff", "shellcheck", "shfmt", "tombi", "uv",
     "yamllint"], []⟩, ?_, by decide, by decide, by decide, by decide⟩
  have h1 : Config.from_yaml [] = .ok ⟨∅, ∅, []⟩ :=
    except_config_eq_ok _ _ _ _ (by decide) (by decide) (by decide) (by decide)
  have h2 : Config.from_yaml
      [("file_types", RawVal.seq ["shell"]), ("tools", RawVal.seq ["pre-commit"])] =
      .ok ⟨{"shell"}, {"pre-commit"}, []⟩ :=
    except_config_eq_ok _ _ _ _ (by decide) (by decide) (by decide) (by decide)
  have h3 : expandCore (⟨∅, ∅, []⟩ : Config) ⟨{"shell"}, {"pre-commit"}, []⟩ =
      some ⟨{"json", "python", "shell", "toml", "yaml"},
        {"ast-grep", "mypy", "node-license-checker", "npm", "pre-commit", "prettier",
         "python-license-checker", "ruff", "shellcheck", "shfmt", "tombi", "uv",
         "yamllint"}, []⟩ :=
    option_config_eq_some _ _ _ _ (by decide) (by decide) (by decide) (by decide)
  exact expand_config_eq_ok _ _ _ _ _ _ _ h1 h2 h3 (by decide) (by decide)
    (by decide) (by decide) (by decide) (by decide)

/-- C4 (counterexample): `actionlint` has `installed_by = None`, empty
`requires` and empty `config_file_types`, yet
`expand_config({}, {tools: ["github-actions"]})` includes it in the output
although it is neither seeded nor listed in `FileType.tools` of any output
file type — it is pulled in by the `requires` edge of `github-actions`, so
the claim's "exactly when seeded or file-type-pulled" is false. -/
theorem isolated_tool_counterexample :
    ∃ c, expandCore ⟨∅, ∅, []⟩ ⟨∅, {"github-actions"}, []⟩ = some c ∧
      (∃ td, lookupTool "actionlint" = some td ∧ td.installed_by = none ∧
        td.requires = ∅ ∧ td.config_file_types = ∅) ∧
      "actionlint" ∈ c.tools ∧
      "actionlint" ∉ ({"github-actions"} : Finset String) ∪ ∅ ∧
      ∀ ft ∈ c.file_types, "actionlint" ∉ (lookupFT ft).elim ∅ FileType.tools := by
  refine ⟨⟨{"json", "python", "shell", "toml", "yaml"},
    {"github-actions", "actionlint", "zizmor", "gha-update", "prettier", "yamllint",
     "uv", "npm", "shellcheck", "shfmt", "ruff", "mypy", "ast-grep", "tombi",
     "python-license-checker", "node-license-checker"}, []⟩,
    ?_, ⟨_, rfl, rfl, rfl, rfl⟩, by decide, by decide, by decide⟩
  exact option_config_eq_some _ _ _ _ (by decide) (by decide) (by decide) (by decide)

/-- C4 (amended): for a tool `X` whose Registry entry has
`installed_by = None`, empty `requires` and empty `config_file_types`, and
which moreover occurs in no Registry tool's `installed_by` or `requires`
(the case the counterexample rules out), `X` appears in the output tools
exactly when it is in the seeded union of the inputs' tools or is listed in
`FileType.tools` of a file type present in the output. -/
theorem isolated_tool_origin (X : String)
    (hX : ∃ td, lookupTool X = some td ∧ td.installed_by = none ∧
      td.requires = ∅ ∧ td.config_file_types = ∅)
    (hq : ∀ p ∈ TOOLS, p.2.installed_by ≠ some X ∧ X ∉ p.2.requires)
    (new existing c : Config) (h : expandCore new existing = some c) :
    X ∈ c.tools ↔ X ∈ existing.tools ∪ new.tools ∨
      ∃ ft ∈ c.file_types, ∃ fd, lookupFT ft = some fd ∧ X ∈ fd.tools := by
  clear hX
  simp only [expandCore] at h
  cases hl : expandLoop FUEL (existing.file_types ∪ new.file_types,
      existing.tools ∪ new.tools) with
  | none => rw [hl] at h; cases h
  | some st'' =>
    rw [hl] at h
    simp only [Option.map_some'] at h
    have hc : c = ⟨st''.1, st''.2, Dict.union existing.metadata new.metadata⟩ :=
      (Option.some.inj h).symm
    subst hc
    constructor
    · intro hmem
      exact expandLoop_tool_origin X hq FUEL _ st'' hl hmem
    · rintro (hseed | ⟨ft, hft, fd, hfd, hXfd⟩)
      · exact (expandLoop_grows _ _ _ hl).2 hseed
      · have hC := closed_of_step_fixed (expandLoop_fixed _ _ _ hl)
        exact hC.1 ft hft fd hfd hXfd

theorem isolated_tool_origin_witness :
    ("shfmt" ∈ (⟨∅, ∅, []⟩ : Config).tools ↔
      "shfmt" ∈ (⟨∅, ∅, []⟩ : Config).tools ∪ (⟨∅, ∅, []⟩ : Config).tools ∨
      ∃ ft ∈ (⟨∅, ∅, []⟩ : Config).file_types, ∃ fd, lookupFT ft = some fd ∧
        "shfmt" ∈ fd.tools) :=
  isolated_tool_origin "shfmt" ⟨_, rfl, rfl, rfl, rfl⟩ (by decide)
    ⟨∅, ∅, []⟩ ⟨∅, ∅, []⟩ ⟨∅, ∅, []⟩
    (option_config_eq_some _ _ _ _ (by decide) (by decide) (by decide) (by decide))

/-- C5: the metadata of the output is `existing.metadata` overlaid with
`new.metadata` (new wins on every key collision), and the output's
file_types and tools do not depend on either input's metadata. -/
theorem expand_metadata_overlay (new existing c : Config)
    (h : expandCore new existing = some c) :
    (∀ k v, Dict.get? new.metadata k = some v → Dict.get? c.metadata k = some v) ∧
    (∀ k, Dict.get? new.metadata k = none →
      Dict.get? c.metadata k = Dict.get? existing.metadata k) ∧
    (∀ m1 m2, ∃ c2, expandCore ⟨new.file_types, new.tools, m1⟩
        ⟨existing.file_types, existing.tools, m2⟩ = some c2 ∧
      c2.file_types = c.file_types ∧ c2.tools = c.tools) := by
  simp only [expandCore] at h
  cases hl : expandLoop FUEL (existing.file_types ∪ new.file_types,
      existing.tools ∪ new.tools) with
  | none => rw [hl] at h; cases h
  | some st'' =>
    rw [hl] at h
    simp only [Option.map_some'] at h
    have hc : c = ⟨st''.1, st''.2, Dict.union existing.metadata new.metadata⟩ :=
      (Option.some.inj h).symm
    subst hc
    refine ⟨?_, ?_, ?_⟩
    · intro k v hk
      exact Dict.get?_union_right _ _ _ _ hk
    · intro k hk
      exact Dict.get?_union_left _ _ _ hk
    · intro m1 m2
      refine ⟨⟨st''.1, st''.2, Dict.union m2 m1⟩, ?_, rfl, rfl⟩
      simp only [expandCore]
      rw [hl]
      rfl

theorem expand_metadata_overlay_witness :
    ∃ c, expandCore ⟨∅, ∅, [("k", "new")]⟩ ⟨∅, ∅, [("k", "old")]⟩ = some c ∧
      Dict.get? c.metadata "k" = some "new" := by
  have hcore : expandCore ⟨∅, ∅, [("k", "new")]⟩ ⟨∅, ∅, [("k", "old")]⟩ =
      some ⟨∅, ∅, [("k", "new")]⟩ :=
    option_config_eq_some _ _ _ _ (by decide) (by decide) (by decide) (by decide)
  exact ⟨_, hcore, (expand_metadata_overlay _ _ _ hcore).1 "k" "new" (by decide)⟩

/-- C6: `expand_config({}, {})` and `expand_config({file_types: None,
tools: None, metadata: None}, {})` both return
`{file_types: [], tools: [], metadata: {}}` without raising: empty sets,
null field values and absent fields are treated identically. -/
theorem expand_null_handling :
    expand_config [] [] = .ok ⟨[], [], []⟩ ∧
    expand_config [("file_types", RawVal.none), ("tools", RawVal.none),
      ("metadata", RawVal.none)] [] = .ok ⟨[], [], []⟩ := by
  have h1 : Config.from_yaml [] = .ok ⟨∅, ∅, []⟩ :=
    except_config_eq_ok _ _ _ _ (by decide) (by decide) (by decide) (by decide)
  have h2 : Config.from_yaml [("file_types", RawVal.none), ("tools", RawVal.none),
      ("metadata", RawVal.none)] = .ok ⟨∅, ∅, []⟩ :=
    except_config_eq_ok _ _ _ _ (by decide) (by decide) (by decide) (by decide)
  have h3 : expandCore (⟨∅, ∅, []⟩ : Config) ⟨∅, ∅, []⟩ = some ⟨∅, ∅, []⟩ :=
    option_config_eq_some _ _ _ _ (by decide) (by decide) (by decide) (by decide)
  constructor
  · exact expand_config_eq_ok _ _ _ _ _ [] [] h1 h1 h3 (by decide) (by decide)
      (by decide) (by decide) (by decide) (by decide)
  · exact expand_config_eq_ok _ _ _ _ _ [] [] h2 h1 h3 (by decide) (by decide)
      (by decide) (by decide) (by decide) (by decide)

/-- C7 (counterexample): a `file_types` field that is an *empty* mapping is
falsy in Python, so `data.get("file_types", []) or []` silently coerces it
to `[]` and `Config.from_yaml` returns an empty config instead of raising
the claimed type error. -/
theorem from_yaml_mapping_coerced_counterexample :
    Config.from_yaml [("file_types", RawVal.map [])] = .ok ⟨∅, ∅, []⟩ :=
  except_config_eq_ok _ _ _ _ (by decide) (by decide) (by decide) (by decide)

/-- C7 (amended): for every raw config whose `file_types` (or `tools`)
field is a *non-empty* mapping, or whose `metadata` field is a truthy
non-mapping, `Config.from_yaml` raises a descriptive type error that names
the offending key and the expected versus actual shape; falsy values
(`None`, `""`, `[]`, `{}`) are instead coerced to empty. -/
theorem from_yaml_rejects_nonempty_mappings (data : RawConfig) :
    (∀ m, rawGet data "file_types" = some (RawVal.map m) → m ≠ [] →
      Config.from_yaml data = .error (setTypeError "file_types" "dict")) ∧
    (∀ s m, setField data "file_types" = .ok s →
      rawGet data "tools" = some (RawVal.map m) → m ≠ [] →
      Config.from_yaml data = .error (setTypeError "tools" "dict")) ∧
    (∀ s t v, setField data "file_types" = .ok s → setField data "tools" = .ok t →
      rawGet data "metadata" = some v → v.isFalsy = false →
      (∀ m, v ≠ RawVal.map m) →
      Config.from_yaml data = .error (dictTypeError "metadata" v.pyType)) := by
  refine ⟨?_, ?_, ?_⟩
  · intro m hget hm
    exact from_yaml_error_fst data _ (setField_map_error data _ m hget hm)
  · intro s m h1 hget hm
    exact from_yaml_error_snd data s _ h1 (setField_map_error data _ m hget hm)
  · intro s t v h1 h2 hget hfalsy hnm
    exact from_yaml_error_trd data s t _ h1 h2
      (dictField_nonmap_error data _ v hget hfalsy hnm)

theorem from_yaml_rejects_nonempty_mappings_witness :
    Config.from_yaml [("file_types", RawVal.map [("a", "b")])] =
      .error (setTypeError "file_types" "dict") :=
  (from_yaml_rejects_nonempty_mappings _).1 [("a", "b")] (by decide) (by decide)

/-- C8: the key set of `python_packages(config)` equals exactly the union
of the `python_packages` key sets of the Registry tools present in
`config.tools`; in particular for tools `{"pytest", "ruff"}` the keys are
exactly `{"pytest", "pytest-cov", "pytest-custom_exit_code", "ruff"}`. -/
theorem python_packages_keys :
    (∀ (raw : RawConfig) (c : Config), Config.from_yaml raw = .ok c →
      ∃ pkgs, python_packages raw = .ok pkgs ∧
        ∀ k, k ∈ Dict.keys pkgs ↔
          ∃ p ∈ TOOLS, p.1 ∈ c.tools ∧ k ∈ Dict.keys p.2.python_packages) ∧
    ∃ pkgs, python_packages [("tools", RawVal.seq ["pytest", "ruff"])] = .ok pkgs ∧
      (Dict.keys pkgs).toFinset =
        {"pytest", "pytest-cov", "pytest-custom_exit_code", "ruff"} := by
  constructor
  · intro raw c hc
    refine ⟨packagesOf Tool.python_packages c.tools, ?_,
      fun k => mem_keys_packagesOf _ _ _⟩
    unfold python_packages
    rw [hc]
    rfl
  · have hfy : Config.from_yaml [("tools", RawVal.seq ["pytest", "ruff"])] =
        .ok ⟨∅, {"pytest", "ruff"}, []⟩ :=
      except_config_eq_ok _ _ _ _ (by decide) (by decide) (by decide) (by decide)
    refine ⟨packagesOf Tool.python_packages {"pytest", "ruff"}, ?_, by decide⟩
    unfold python_packages
    rw [hfy]
    rfl

theorem python_packages_keys_witness :
    ∃ pkgs, python_packages [("tools", RawVal.seq ["gitlint"])] = .ok pkgs ∧
      ∀ k, k ∈ Dict.keys pkgs ↔
        ∃ p ∈ TOOLS, p.1 ∈ (⟨∅, {"gitlint"}, []⟩ : Config).tools ∧
          k ∈ Dict.keys p.2.python_packages :=
  python_packages_keys.1 _ ⟨∅, {"gitlint"}, []⟩
    (except_config_eq_ok _ _ _ _ (by decide) (by decide) (by decide) (by decide))

/-- C9: the closure loop of `expand_config` terminates for every pair of
input configs whose ids all occur in the Registry: the working sets only
grow inside the finite vocabulary of Registry ids (9 file types and 28
tools), so the loop reaches its fixed point within `FUEL = 38`
iterations and returns a result. -/
theorem expand_loop_terminates (new existing : Config)
    (h1 : existing.file_types ∪ new.file_types ⊆ ftKeys)
    (h2 : existing.tools ∪ new.tools ⊆ toolKeys) :
    ∃ c, expandCore new existing = some c := by
  obtain ⟨c, hc, -, -, -, -, -⟩ := expandCore_spec new existing h1 h2
  exact ⟨c, hc⟩

theorem expand_loop_terminates_witness :
    ∃ c, expandCore ⟨{"markdown"}, ∅, []⟩ ⟨∅, {"typos"}, []⟩ = some c :=
  expand_loop_terminates ⟨{"markdown"}, ∅, []⟩ ⟨∅, {"typos"}, []⟩
    (by decide) (by decide)

/-- C10 (implicit behaviour, confirmed): a string-valued `file_types` or
`tools` field is a Python `Sequence`, so `Config.from_yaml` does not
raise; it builds the set of the string's individual characters —
`frozenset("shell") = {"s", "h", "e", "l"}`. -/
theorem from_yaml_string_field_chars :
    (∀ (data : RawConfig) (s : String),
      rawGet data "file_types" = some (RawVal.str s) →
      setField data "file_types" = .ok (charStrings s)) ∧
    (∀ (data : RawConfig) (s : String),
      rawGet data "tools" = some (RawVal.str s) →
      setField data "tools" = .ok (charStrings s)) ∧
    Config.from_yaml [("file_types", RawVal.str "shell")] =
      .ok ⟨{"s", "h", "e", "l"}, ∅, []⟩ := by
  refine ⟨?_, ?_, ?_⟩
  · intro data s hget
    exact setField_str data _ s hget
  · intro data s hget
    exact setField_str data _ s hget
  · exact except_config_eq_ok _ _ _ _ (by decide) (by decide) (by decide) (by decide)

theorem from_yaml_string_field_chars_witness :
    setField [("file_types", RawVal.str "shell")] "file_types" =
      .ok (charStrings "shell") :=
  from_yaml_string_field_chars.1 _ "shell" (by decide)

end ConfigExtension

end CopierTemplate
